import Mathlib

/-!
Verification of the deterministic analytic core of the smart-energy-agent
repository: the four statistics/costing tools in
`src/tools/adk_custom_tools.py`
(`calculate_consumption_statistics`, `detect_peak_hours`,
`calculate_cost_by_rate_tier`, `estimate_savings_potential`).

Modelling conventions:
* Python numbers are embedded as rationals (`ℚ`); Python's `round(x, n)`
  (round-half-to-even) is embedded as `roundTo n`.
* Python's `sorted` (a stable sort) is embedded through Mathlib's stable
  `List.insertionSort` keyed ascending; `sorted(..., reverse=True)` is the
  same stable sort on the negated key.
* Every exception the Python code catches and turns into an error dict is
  an explicit `ToolResult.error` value; the uncaught `TypeError` that
  `float(...)` can raise inside `detect_peak_hours` (its inner handler only
  catches `ValueError`/`AttributeError`, so the outer handler converts it
  into an error result for the whole call) is the `ConsVal.typeErr` input
  shape, which aborts the grouping loop.
* The grouping loop of `detect_peak_hours` creates the hour's bucket
  (`hourly_consumption[hour] = []`) before coercing the consumption, so a
  reading whose consumption then fails `float()` with `ValueError` still
  inserts an empty bucket (`touchHour`), fixing the dict's insertion order
  and, if the bucket is never filled, making `statistics.mean([])` raise
  while the averages are built, which errors the whole call.
-/

namespace EnergyTools

/-- Python `round` to an integer: round half to even (banker's rounding). -/
def roundHalfEven (q : ℚ) : ℤ :=
  let f := ⌊q⌋
  let r := q - f
  if r < 1 / 2 then f
  else if 1 / 2 < r then f + 1
  else if f % 2 = 0 then f else f + 1

/-- Python `round(q, n)`: round half to even at `n` decimal places. -/
def roundTo (n : ℕ) (q : ℚ) : ℚ :=
  (roundHalfEven (q * 10 ^ n) : ℚ) / 10 ^ n

/-- Python `round(q, 2)`. -/
def round2 (q : ℚ) : ℚ := roundTo 2 q

/-- Python `round(q, 3)`. -/
def round3 (q : ℚ) : ℚ := roundTo 3 q

/-- Python list slicing `l[:n]` for an arbitrary integer `n`. -/
def pyTake (n : ℤ) (l : List α) : List α :=
  if 0 ≤ n then l.take n.toNat
  else l.take ((l.length : ℤ) + n).toNat

/-- Python's stable `sorted(l, key=key)` (ascending by a rational key). -/
def sortByKey (key : α → ℚ) (l : List α) : List α :=
  l.insertionSort (fun a b => key a ≤ key b)

/-- `statistics.mean` (exact rational mean; only used on non-empty lists). -/
def listMean (l : List ℚ) : ℚ := l.sum / l.length

/-- Python `min(l)` on a non-empty list. -/
def listMin : List ℚ → ℚ
  | [] => 0
  | x :: xs => xs.foldl min x

/-- Python `max(l)` on a non-empty list. -/
def listMax : List ℚ → ℚ
  | [] => 0
  | x :: xs => xs.foldl max x

/-- `statistics.median`: sort, middle element (odd length) or mean of the
two middle elements (even length). -/
def listMedian (l : List ℚ) : ℚ :=
  let s := sortByKey id l
  let n := l.length
  if n % 2 = 1 then s.getD (n / 2) 0
  else (s.getD (n / 2 - 1) 0 + s.getD (n / 2) 0) / 2

/-- Sample variance with denominator `n - 1`, the quantity whose square
root `statistics.stdev` computes (the Python library computes the variance
in exact rational arithmetic before taking the square root). -/
def sampleVar (l : List ℚ) : ℚ :=
  ((l.map (fun x => (x - listMean l) ^ 2)).sum) / ((l.length : ℚ) - 1)

/-- The integer nearest (half-to-even) to `Real.sqrt s / d`, computed with
integer arithmetic: `Nat.sqrt s / d` is the floor, and comparing `4 * s`
with `(2 * d * m + d) ^ 2` decides the half. -/
def sqrtNearestInt (s d : ℕ) : ℕ :=
  let m := Nat.sqrt s / d
  if 4 * s < (2 * d * m + d) ^ 2 then m
  else if (2 * d * m + d) ^ 2 < 4 * s then m + 1
  else if m % 2 = 0 then m else m + 1

/-- `round(statistics.stdev-style square root of v, 2)`: the square root of
a non-negative rational, rounded half-to-even to 2 decimal places. -/
def sqrtRound2 (v : ℚ) : ℚ :=
  if v ≤ 0 then 0
  else (sqrtNearestInt (10000 * v.num.toNat * v.den) v.den : ℚ) / 100

/-- Result of every tool: a dict with `"status": "success"` and payload
fields, or `"status": "error"` with an `error_message`. -/
inductive ToolResult (α : Type) where
  | ok (value : α)
  | error (error_message : String)
  deriving DecidableEq

/-- The `"status"` field of the returned dict. -/
def ToolResult.status : ToolResult α → String
  | .ok _ => "success"
  | .error _ => "error"

/-- Whether the returned dict is the error shape. -/
def ToolResult.isErr : ToolResult α → Bool
  | .ok _ => false
  | .error _ => true

/-! ### calculate_consumption_statistics -/

/-- The value stored under `consumption_kwh`, as seen by `float(...)`:
a coercible number, a non-numeric string (`ValueError`), or `None`
(`TypeError`); `calculate_consumption_statistics` catches both and skips
the element. -/
inductive PyNum where
  | num (q : ℚ)
  | badStr
  | noneVal
  deriving DecidableEq

/-- An element of the `consumption_data` list handed to
`calculate_consumption_statistics`: not a dict, a dict without the
`consumption_kwh` key, or a dict with some value under that key. -/
inductive StatItem where
  | notDict
  | noField
  | field (v : PyNum)
  deriving DecidableEq

/-- One loop step of the extraction in `calculate_consumption_statistics`:
`float(item['consumption_kwh'])` when the key exists, skipping elements
whose coercion raises. -/
def coerceItem : StatItem → Option ℚ
  | .field (.num q) => some q
  | _ => none

/-- The `consumptions` list built by `calculate_consumption_statistics`. -/
def consumptions (data : List StatItem) : List ℚ :=
  data.filterMap coerceItem

/-- The success payload of `calculate_consumption_statistics`. -/
structure Stats where
  mean : ℚ
  median : ℚ
  std_dev : ℚ
  min : ℚ
  max : ℚ
  total : ℚ
  count : ℕ
  deriving DecidableEq

/-- The statistics dict computed from the surviving values. -/
def statsOf (vs : List ℚ) : Stats where
  mean := round2 (listMean vs)
  median := round2 (listMedian vs)
  std_dev := if 1 < vs.length then sqrtRound2 (sampleVar vs) else 0
  min := round2 (listMin vs)
  max := round2 (listMax vs)
  total := round2 vs.sum
  count := vs.length

/-- `calculate_consumption_statistics` from
`src/tools/adk_custom_tools.py`. -/
def calculate_consumption_statistics (data : List StatItem) : ToolResult Stats :=
  if data.isEmpty then .error ("consumption_data must be a non-empty list")
  else if (consumptions data).isEmpty then
    .error ("No valid consumption_kwh values found in data")
  else .ok (statsOf (consumptions data))

/-! ### detect_peak_hours -/

/-- The `timestamp` value of a reading: absent or falsy, a value whose
parse attempt raises `ValueError`/`AttributeError` (both caught, reading
skipped), or one that yields an hour of day. -/
inductive TsVal where
  | missing
  | badParse
  | hour (h : ℕ)
  deriving DecidableEq

/-- The `consumption_kwh` value of a reading: `None` (reading skipped by
the pre-check), a coercible number, a string raising `ValueError` (caught,
reading skipped), or a value raising `TypeError` in `float(...)`, which the
inner `except (ValueError, AttributeError)` does not catch, so it aborts
the whole call into the outer handler. -/
inductive ConsVal where
  | noneV
  | num (q : ℚ)
  | badStr
  | typeErr
  deriving DecidableEq

/-- An element of the reading list handed to `detect_peak_hours`. -/
inductive Reading where
  | notDict
  | item (timestamp : TsVal) (consumption : ConsVal)
  deriving DecidableEq

/-- One iteration of the grouping loop of `detect_peak_hours` on the
accumulated hour-to-values dict: ensure the bucket exists, then append
the coerced value (`if hour not in hourly_consumption:
hourly_consumption[hour] = []` followed by a successful append). -/
def addReading (acc : List (ℕ × List ℚ)) (h : ℕ) (v : ℚ) : List (ℕ × List ℚ) :=
  match acc with
  | [] => [(h, [v])]
  | (h', vs) :: rest =>
    if h' = h then (h', vs ++ [v]) :: rest else (h', vs) :: addReading rest h v

/-- The bucket-creation half of the loop body alone: the timestamp parsed
to `h` and `hourly_consumption[h] = []` ran, but `float(consumption)` then
raised before anything was appended.  A fresh hour keeps an empty bucket
(at the end of the dict's insertion order); an existing hour is
unchanged. -/
def touchHour (acc : List (ℕ × List ℚ)) (h : ℕ) : List (ℕ × List ℚ) :=
  match acc with
  | [] => [(h, [])]
  | (h', vs) :: rest =>
    if h' = h then (h', vs) :: rest else (h', vs) :: touchHour rest h

/-- Processing of one reading by the grouping loop; `none` means the
uncaught `TypeError` from `float(...)`.  A non-numeric-string consumption
raises `ValueError` only after the bucket for its (parsed) hour was
created, so it leaves a possibly empty bucket behind.  (The `TypeError`
also fires after the bucket creation, but it aborts the whole call into
an error dict, so the accumulator it leaves is never observed.) -/
def stepReading (acc : List (ℕ × List ℚ)) : Reading → Option (List (ℕ × List ℚ))
  | .notDict => some acc
  | .item ts cv =>
    match ts, cv with
    | .missing, _ => some acc
    | _, .noneV => some acc
    | .badParse, _ => some acc
    | .hour h, .num q => some (addReading acc h q)
    | .hour h, .badStr => some (touchHour acc h)
    | .hour _, .typeErr => none

/-- The grouping loop of `detect_peak_hours`, building the
`hourly_consumption` dict in insertion order; `none` when a reading
raised the uncaught `TypeError`. -/
def groupAux (acc : List (ℕ × List ℚ)) : List Reading → Option (List (ℕ × List ℚ))
  | [] => some acc
  | r :: rs =>
    match stepReading acc r with
    | none => none
    | some acc' => groupAux acc' rs

/-- `hourly_consumption` for a reading list. -/
def groupReadings (rs : List Reading) : Option (List (ℕ × List ℚ)) :=
  groupAux [] rs

/-- `hourly_averages`: mean consumption per hour bucket, in dict
(first-appearance) order. -/
def hourlyAverages (g : List (ℕ × List ℚ)) : List (ℕ × ℚ) :=
  g.map (fun p => (p.1, listMean p.2))

/-- `sorted(hourly_averages.items(), key=lambda x: x[1], reverse=True)`:
Python's stable descending sort, i.e. the stable ascending sort on the
negated key. -/
def rankedHours (g : List (ℕ × List ℚ)) : List (ℕ × ℚ) :=
  sortByKey (fun p => -p.2) (hourlyAverages g)

/-- The success payload of `detect_peak_hours` (hour keys of the
`peak_hours_consumption` dict kept as numbers; Python stringifies them). -/
structure PeakR where
  peak_hours : List ℕ
  peak_hours_consumption : List (ℕ × ℚ)
  average_peak_consumption : ℚ
  total_hours_analyzed : ℕ
  deriving DecidableEq

/-- The consumption values of all valid readings whose hour is `h`, in
input order. -/
def hourValues (rs : List Reading) (h : ℕ) : List ℚ :=
  rs.filterMap (fun r =>
    match r with
    | .item (.hour h') (.num q) => if h' = h then some q else none
    | _ => none)

/-- `detect_peak_hours` from `src/tools/adk_custom_tools.py`.
`statistics.mean` raises on an empty list, which the outer handler turns
into an error result: first on the first empty hour bucket while the
averages dict is built (a bucket created by a bad-string consumption and
never filled), and otherwise on an empty top slice. -/
def detect_peak_hours (rs : List Reading) (top_n : ℤ) : ToolResult PeakR :=
  if rs.isEmpty then .error ("consumption_data must be a non-empty list")
  else
    match groupReadings rs with
    | none => .error ("Failed to detect peak hours: float() argument error")
    | some g =>
      if g.isEmpty then .error ("Could not extract hourly consumption data")
      else if g.any (fun p => p.2.isEmpty) then
        .error ("Failed to detect peak hours: mean requires at least one data point")
      else
        let top := pyTake top_n (rankedHours g)
        if top.isEmpty then
          .error ("Failed to detect peak hours: mean requires at least one data point")
        else
          .ok { peak_hours := top.map (fun p => p.1)
                peak_hours_consumption := top.map (fun p => (p.1, round2 p.2))
                average_peak_consumption := round2 (listMean (top.map (fun p => p.2)))
                total_hours_analyzed := (hourlyAverages g).length }

/-! ### calculate_cost_by_rate_tier -/

/-- A rate-tier dict as the code reads it: optional `tier_name`/`tier`
labels and optional `rate_per_kwh`/`rate`/`threshold_kwh` numbers, looked
up with `dict.get` fallbacks. -/
structure Tier where
  tier_name : Option String
  tier : Option String
  rate_per_kwh : Option ℚ
  rate : Option ℚ
  threshold_kwh : Option ℚ
  deriving DecidableEq

/-- `float(tier.get('rate_per_kwh', tier.get('rate', 0.15)))`. -/
def effRate (t : Tier) : ℚ :=
  t.rate_per_kwh.getD (t.rate.getD (15 / 100))

/-- The sort key `float(x.get('rate_per_kwh', x.get('rate', 0)))` used by
the multi-tier branch (note the default 0, unlike `effRate`). -/
def sortRateKey (t : Tier) : ℚ :=
  t.rate_per_kwh.getD (t.rate.getD 0)

/-- `tier.get('tier_name', tier.get('tier', 'standard'))` (single-tier). -/
def labelSingle (t : Tier) : String :=
  t.tier_name.getD (t.tier.getD ("standard"))

/-- The label of the entry appended at position `idx` of the breakdown:
the f-string default counts from 1. -/
def labelMulti (t : Tier) (idx : ℕ) : String :=
  t.tier_name.getD (t.tier.getD ("tier_" ++ toString (idx + 1)))

/-- One unrounded allocation step of the multi-tier loop. -/
structure TierAlloc where
  label : String
  kwh : ℚ
  rate : ℚ
  deriving DecidableEq

/-- The multi-tier loop of `calculate_cost_by_rate_tier`: walk the sorted
tiers, each consuming `min(remaining, threshold)` kWh (threshold defaults
to the current remaining), stop when the remaining consumption reaches 0
or the tiers run out.  Records the unrounded per-tier allocation; the
returned dict rounds each entry and the total. -/
def allocateTiers (remaining : ℚ) (tiers : List Tier) (idx : ℕ) : List TierAlloc :=
  match tiers with
  | [] => []
  | t :: ts =>
    if remaining ≤ 0 then []
    else
      let tier_kwh := min remaining (t.threshold_kwh.getD remaining)
      ⟨labelMulti t idx, tier_kwh, effRate t⟩ :: allocateTiers (remaining - tier_kwh) ts (idx + 1)

/-- The unrounded total accumulated by the loop variable `total_cost`. -/
def rawCost (allocs : List TierAlloc) : ℚ :=
  (allocs.map (fun a => a.kwh * a.rate)).sum

/-- The total kWh the loop allocated (before per-entry rounding). -/
def sumKwh (allocs : List TierAlloc) : ℚ :=
  (allocs.map (fun a => a.kwh)).sum

/-- One entry of `tier_breakdown` as returned (kWh and cost rounded). -/
structure CostEntry where
  tier : String
  kwh : ℚ
  rate : ℚ
  cost : ℚ
  deriving DecidableEq

/-- The success payload of `calculate_cost_by_rate_tier`; `average_rate`
is `none` for the single-tier branch, which does not emit the field. -/
structure CostR where
  total_cost : ℚ
  currency : String
  tier_breakdown : List CostEntry
  average_rate : Option ℚ
  deriving DecidableEq

/-- The rounded breakdown entry for one allocation. -/
def entryOf (a : TierAlloc) : CostEntry :=
  ⟨a.label, round2 a.kwh, a.rate, round2 (a.kwh * a.rate)⟩

/-- `calculate_cost_by_rate_tier` from `src/tools/adk_custom_tools.py`. -/
def calculate_cost_by_rate_tier (consumption_kwh : ℚ) (rate_tiers : List Tier) :
    ToolResult CostR :=
  if consumption_kwh ≤ 0 then
    .error ("consumption_kwh must be greater than 0")
  else
    match rate_tiers with
    | [] => .error ("rate_tiers must be a non-empty list")
    | [t] =>
      let rate := effRate t
      let total_cost := consumption_kwh * rate
      .ok { total_cost := round2 total_cost
            currency := "USD"
            tier_breakdown := [⟨labelSingle t, consumption_kwh, rate, round2 total_cost⟩]
            average_rate := none }
    | t1 :: t2 :: rest =>
      let allocs := allocateTiers consumption_kwh (sortByKey sortRateKey (t1 :: t2 :: rest)) 0
      .ok { total_cost := round2 (rawCost allocs)
            currency := "USD"
            tier_breakdown := allocs.map entryOf
            average_rate := some (round3 (rawCost allocs / consumption_kwh)) }

/-! #### Spec-side model of the progressive allocation (for refinement)

`SpecRateTier` and `specAllocate` follow the words of spec §4.3
("Multi-tier case (progressive allocation): sort tiers ascending by
rate_per_kwh; allocate consumption tier by tier — each tier consumes
min(remaining_kwh, threshold_kwh) kWh (if threshold_kwh absent, the tier
absorbs all remaining consumption), accumulate cost = kwh_in_tier × rate,
subtract from remaining, stop once remaining reaches 0 or tiers are
exhausted"), to be compared with the code-side `allocateTiers`. -/

/-- The spec's `RateTier` record (§3). -/
structure SpecRateTier where
  tier_name : String
  rate_per_kwh : ℚ
  threshold_kwh : Option ℚ
  deriving DecidableEq

/-- Spec §4.3 progressive allocation, written from the spec's words:
returns the per-tier (kwh, rate) consumption sequence. -/
def specAllocate (remaining : ℚ) (tiers : List SpecRateTier) : List (ℚ × ℚ) :=
  match tiers with
  | [] => []
  | t :: ts =>
    if remaining ≤ 0 then []
    else
      let kwh_in_tier :=
        match t.threshold_kwh with
        | some th => min remaining th
        | none => remaining
      (kwh_in_tier, t.rate_per_kwh) :: specAllocate (remaining - kwh_in_tier) ts

/-- Spec §4.3: sort ascending by `rate_per_kwh`. -/
def specSortTiers (tiers : List SpecRateTier) : List SpecRateTier :=
  sortByKey SpecRateTier.rate_per_kwh tiers

/-- The dict shape a spec-level `RateTier` arrives in. -/
def toTier (t : SpecRateTier) : Tier :=
  ⟨some t.tier_name, none, some t.rate_per_kwh, none, t.threshold_kwh⟩

/-! ### estimate_savings_potential -/

/-- The success payload of `estimate_savings_potential`. -/
structure SavingsR where
  monthly_savings_usd : ℚ
  annual_savings_usd : ℚ
  kwh_saved_monthly : ℚ
  kwh_saved_annually : ℚ
  current_monthly_cost : ℚ
  new_monthly_cost : ℚ
  reduction_percentage : ℚ
  deriving DecidableEq

/-- `estimate_savings_potential` from `src/tools/adk_custom_tools.py`. -/
def estimate_savings_potential (current_consumption_kwh reduction_percentage : ℚ)
    (rate_per_kwh : ℚ := 15 / 100) : ToolResult SavingsR :=
  if current_consumption_kwh ≤ 0 then
    .error ("current_consumption_kwh must be greater than 0")
  else if ¬ (0 ≤ reduction_percentage ∧ reduction_percentage ≤ 100) then
    .error ("reduction_percentage must be between 0 and 100")
  else if rate_per_kwh ≤ 0 then
    .error ("rate_per_kwh must be greater than 0")
  else
    let kwh_saved_monthly := current_consumption_kwh * (reduction_percentage / 100)
    let kwh_saved_annually := kwh_saved_monthly * 12
    let monthly_savings := kwh_saved_monthly * rate_per_kwh
    let annual_savings := monthly_savings * 12
    let current_monthly_cost := current_consumption_kwh * rate_per_kwh
    let new_monthly_cost := current_monthly_cost - monthly_savings
    .ok { monthly_savings_usd := round2 monthly_savings
          annual_savings_usd := round2 annual_savings
          kwh_saved_monthly := round2 kwh_saved_monthly
          kwh_saved_annually := round2 kwh_saved_annually
          current_monthly_cost := round2 current_monthly_cost
          new_monthly_cost := round2 new_monthly_cost
          reduction_percentage := reduction_percentage }

/-! ### Auxiliary definitions used by the lemmas below -/

/-- First-match association lookup on the grouping dict. -/
def alook (l : List (ℕ × List ℚ)) (h : ℕ) : List ℚ :=
  match l with
  | [] => []
  | (h', vs) :: t => if h' = h then vs else alook t h

/-- The hour keys of the grouping dict, in insertion order. -/
def keysOf (l : List (ℕ × List ℚ)) : List ℕ := l.map Prod.fst

/-- A reading of the shape `{'timestamp': parsable, 'consumption_kwh':
number}`, the only shape the grouping loop records. -/
def IsValidReading (r : Reading) : Prop :=
  ∃ h q, r = Reading.item (TsVal.hour h) (ConsVal.num q)

/-- The sum of the declared thresholds. -/
def thSum (l : List Tier) : ℚ := (l.map (fun t => t.threshold_kwh.getD 0)).sum

/-- The three-tier example schedule from the spec and the module's own
test block (rates 0.10/0.15/0.25, thresholds 200/500/1000, no labels). -/
def exampleTiers : List Tier :=
  [⟨none, none, some (1 / 10), none, some 200⟩,
   ⟨none, none, some (3 / 20), none, some 500⟩,
   ⟨none, none, some (1 / 4), none, some 1000⟩]

/-- The same schedule on the spec's RateTier records. -/
def exampleSpecTiers : List SpecRateTier :=
  [⟨"off-peak", 1 / 10, some 200⟩, ⟨"standard", 3 / 20, some 500⟩,
   ⟨"peak", 1 / 4, some 1000⟩]

/-! ## Helper lemmas: the stable sort -/

theorem sortByKey_perm (key : α → ℚ) (l : List α) : List.Perm (sortByKey key l) l :=
  List.perm_insertionSort _ l

theorem sortByKey_mem {key : α → ℚ} {l : List α} {x : α} :
    x ∈ sortByKey key l ↔ x ∈ l :=
  List.mem_insertionSort _

theorem sortByKey_sorted (key : α → ℚ) (l : List α) :
    List.Sorted (fun a b => key a ≤ key b) (sortByKey key l) := by
  haveI : IsTotal α (fun a b => key a ≤ key b) := ⟨fun a b => le_total _ _⟩
  haveI : IsTrans α (fun a b => key a ≤ key b) := ⟨fun a b c hab hbc => le_trans hab hbc⟩
  exact List.sorted_insertionSort _ l

/-- Stability: a pair already in key order keeps its relative position. -/
theorem sortByKey_pair {key : α → ℚ} {x y : α} {l : List α}
    (hk : key x ≤ key y) (h : List.Sublist [x, y] l) :
    List.Sublist [x, y] (sortByKey key l) :=
  List.pair_sublist_insertionSort hk h

/-- In a list sorted by key, an element with strictly smaller key comes
before one with larger key. -/
theorem sorted_pair_of_lt {key : α → ℚ} {s : List α}
    (hs : List.Sorted (fun a b => key a ≤ key b) s)
    {x y : α} (hx : x ∈ s) (hy : y ∈ s) (hlt : key x < key y) :
    List.Sublist [x, y] s := by
  induction s with
  | nil => cases hx
  | cons a t ih =>
    rw [List.sorted_cons] at hs
    rcases List.mem_cons.mp hx with rfl | hx2
    · have hyt : y ∈ t := by
        rcases List.mem_cons.mp hy with rfl | h2
        · exact absurd hlt (lt_irrefl _)
        · exact h2
      exact List.Sublist.cons₂ _ (List.singleton_sublist.mpr hyt)
    · have hyt : y ∈ t := by
        rcases List.mem_cons.mp hy with rfl | h2
        · exact absurd (hs.1 _ hx2) (not_le_of_lt hlt)
        · exact h2
      exact (ih hs.2 hx2 hyt).cons _

/-- A pair-sublist of a duplicate-free list survives `take` as soon as the
second component survives. -/
theorem pair_sublist_take {l : List α} (hnd : l.Nodup) {x y : α} (hxy : x ≠ y)
    (h : List.Sublist [x, y] l) :
    ∀ {n : ℕ}, y ∈ l.take n → List.Sublist [x, y] (l.take n) := by
  induction l with
  | nil => intro n hy; rw [List.take_nil] at hy; cases hy
  | cons a t ih =>
    intro n hy
    cases n with
    | zero => cases hy
    | succ m =>
      rw [List.take_succ_cons] at hy ⊢
      rw [List.nodup_cons] at hnd
      cases h with
      | cons₂ _ h2 =>
        have hyt : y ∈ t.take m := by
          rcases List.mem_cons.mp hy with rfl | h3
          · exact absurd rfl (Ne.symm hxy)
          · exact h3
        exact List.Sublist.cons₂ _ (List.singleton_sublist.mpr hyt)
      | cons _ h2 =>
        have hyt : y ∈ t := h2.subset (by simp)
        have hym : y ∈ t.take m := by
          rcases List.mem_cons.mp hy with rfl | h3
          · exact absurd hyt hnd.1
          · exact h3
        exact (ih hnd.2 h2 hym).cons _

/-- `pyTake` of a non-negative count is `List.take`. -/
theorem pyTake_nonneg {n : ℤ} (h : 0 ≤ n) (l : List α) :
    pyTake n l = l.take n.toNat := by
  rw [pyTake, if_pos h]

/-- `pyTake` is always some `List.take`. -/
theorem pyTake_eq_take (n : ℤ) (l : List α) : ∃ k : ℕ, pyTake n l = l.take k := by
  rw [pyTake]
  split
  · exact ⟨_, rfl⟩
  · exact ⟨_, rfl⟩

/-- Every 2-decimal rounding is an integer number of hundredths. -/
theorem round2_eq_int_div (q : ℚ) : ∃ k : ℤ, round2 q = (k : ℚ) / 100 := by
  refine ⟨roundHalfEven (q * 10 ^ 2), ?_⟩
  rw [round2, roundTo]
  norm_num

/-! ## Helper lemmas: the grouping dict of detect_peak_hours -/


theorem alook_addReading_same (acc : List (ℕ × List ℚ)) (h : ℕ) (v : ℚ) :
    alook (addReading acc h v) h = alook acc h ++ [v] := by
  induction acc with
  | nil => simp [addReading, alook]
  | cons p t ih =>
    obtain ⟨h1, vs⟩ := p
    by_cases e : h1 = h
    · subst e
      simp [addReading, alook]
    · simp [addReading, alook, e, ih]

theorem alook_addReading_other (acc : List (ℕ × List ℚ)) {h h2 : ℕ} (v : ℚ)
    (hne : h2 ≠ h) : alook (addReading acc h v) h2 = alook acc h2 := by
  induction acc with
  | nil =>
    simp only [addReading, alook]
    rw [if_neg (fun e => hne e.symm)]
  | cons p t ih =>
    obtain ⟨h1, vs⟩ := p
    by_cases e : h1 = h
    · subst e
      simp only [addReading, if_pos rfl, alook]
      rw [if_neg (fun e => hne e.symm), if_neg (fun e => hne e.symm)]
    · simp only [addReading, if_neg e, alook]
      by_cases e2 : h1 = h2
      · rw [if_pos e2, if_pos e2]
      · rw [if_neg e2, if_neg e2, ih]

theorem addReading_cons_same (h : ℕ) (vs : List ℚ) (t : List (ℕ × List ℚ)) (v : ℚ) :
    addReading ((h, vs) :: t) h v = (h, vs ++ [v]) :: t := by
  simp [addReading]

theorem addReading_cons_ne {h1 h : ℕ} (e : h1 ≠ h) (vs : List ℚ)
    (t : List (ℕ × List ℚ)) (v : ℚ) :
    addReading ((h1, vs) :: t) h v = (h1, vs) :: addReading t h v := by
  simp [addReading, e]

theorem mem_keys_addReading {acc : List (ℕ × List ℚ)} {a h : ℕ} (v : ℚ) :
    a ∈ keysOf (addReading acc h v) ↔ a ∈ keysOf acc ∨ a = h := by
  induction acc with
  | nil => simp [addReading, keysOf]
  | cons p t ih =>
    obtain ⟨h1, vs⟩ := p
    by_cases e : h1 = h
    · subst e
      rw [addReading_cons_same]
      simp only [keysOf, List.map_cons, List.mem_cons]
      tauto
    · rw [addReading_cons_ne e]
      simp only [keysOf, List.map_cons, List.mem_cons] at ih ⊢
      rw [ih]
      tauto

theorem nodup_keys_addReading {acc : List (ℕ × List ℚ)} (h : ℕ) (v : ℚ)
    (hnd : (keysOf acc).Nodup) : (keysOf (addReading acc h v)).Nodup := by
  induction acc with
  | nil => simp [addReading, keysOf]
  | cons p t ih =>
    obtain ⟨h1, vs⟩ := p
    simp only [keysOf, List.map_cons, List.nodup_cons] at hnd
    by_cases e : h1 = h
    · subst e
      rw [addReading_cons_same]
      simp only [keysOf, List.map_cons, List.nodup_cons]
      exact hnd
    · rw [addReading_cons_ne e]
      simp only [keysOf, List.map_cons, List.nodup_cons]
      refine ⟨?_, ih hnd.2⟩
      intro hm
      rcases (mem_keys_addReading v).mp hm with hm2 | rfl
      · exact hnd.1 hm2
      · exact e rfl

theorem addReading_ne_nil (acc : List (ℕ × List ℚ)) (h : ℕ) (v : ℚ) :
    addReading acc h v ≠ [] := by
  cases acc with
  | nil => simp [addReading]
  | cons p t =>
    obtain ⟨h1, vs⟩ := p
    by_cases e : h1 = h
    · subst e
      rw [addReading_cons_same]
      simp
    · rw [addReading_cons_ne e]
      simp

theorem touchHour_cons_same (h : ℕ) (vs : List ℚ) (t : List (ℕ × List ℚ)) :
    touchHour ((h, vs) :: t) h = (h, vs) :: t := by
  simp [touchHour]

theorem touchHour_cons_ne {h1 h : ℕ} (e : h1 ≠ h) (vs : List ℚ)
    (t : List (ℕ × List ℚ)) :
    touchHour ((h1, vs) :: t) h = (h1, vs) :: touchHour t h := by
  simp [touchHour, e]

/-- Creating an (empty) bucket never changes any lookup: a fresh bucket
holds `[]`, which is what a missing key reads as. -/
theorem alook_touchHour (acc : List (ℕ × List ℚ)) (h h2 : ℕ) :
    alook (touchHour acc h) h2 = alook acc h2 := by
  induction acc with
  | nil =>
    simp only [touchHour, alook]
    by_cases e : h = h2
    · rw [if_pos e]
    · rw [if_neg e]
  | cons p t ih =>
    obtain ⟨h1, vs⟩ := p
    by_cases e : h1 = h
    · subst e
      rw [touchHour_cons_same]
    · rw [touchHour_cons_ne e]
      simp only [alook]
      by_cases e2 : h1 = h2
      · rw [if_pos e2, if_pos e2]
      · rw [if_neg e2, if_neg e2, ih]

theorem mem_keys_touchHour {acc : List (ℕ × List ℚ)} {a h : ℕ} :
    a ∈ keysOf (touchHour acc h) ↔ a ∈ keysOf acc ∨ a = h := by
  induction acc with
  | nil => simp [touchHour, keysOf]
  | cons p t ih =>
    obtain ⟨h1, vs⟩ := p
    by_cases e : h1 = h
    · subst e
      rw [touchHour_cons_same]
      simp only [keysOf, List.map_cons, List.mem_cons]
      tauto
    · rw [touchHour_cons_ne e]
      simp only [keysOf, List.map_cons, List.mem_cons] at ih ⊢
      rw [ih]
      tauto

theorem nodup_keys_touchHour {acc : List (ℕ × List ℚ)} (h : ℕ)
    (hnd : (keysOf acc).Nodup) : (keysOf (touchHour acc h)).Nodup := by
  induction acc with
  | nil => simp [touchHour, keysOf]
  | cons p t ih =>
    obtain ⟨h1, vs⟩ := p
    simp only [keysOf, List.map_cons, List.nodup_cons] at hnd
    by_cases e : h1 = h
    · subst e
      rw [touchHour_cons_same]
      simp only [keysOf, List.map_cons, List.nodup_cons]
      exact hnd
    · rw [touchHour_cons_ne e]
      simp only [keysOf, List.map_cons, List.nodup_cons]
      refine ⟨?_, ih hnd.2⟩
      intro hm
      rcases mem_keys_touchHour.mp hm with hm2 | rfl
      · exact hnd.1 hm2
      · exact e rfl

theorem touchHour_ne_nil (acc : List (ℕ × List ℚ)) (h : ℕ) :
    touchHour acc h ≠ [] := by
  cases acc with
  | nil => simp [touchHour]
  | cons p t =>
    obtain ⟨h1, vs⟩ := p
    by_cases e : h1 = h
    · subst e
      rw [touchHour_cons_same]
      simp
    · rw [touchHour_cons_ne e]
      simp

theorem alook_of_mem {g : List (ℕ × List ℚ)} (hnd : (keysOf g).Nodup)
    {h : ℕ} {vs : List ℚ} (hm : (h, vs) ∈ g) : alook g h = vs := by
  induction g with
  | nil => cases hm
  | cons p t ih =>
    obtain ⟨h1, vs1⟩ := p
    simp only [keysOf, List.map_cons, List.nodup_cons] at hnd
    rcases List.mem_cons.mp hm with he | hm2
    · rw [Prod.mk.injEq] at he
      obtain ⟨rfl, rfl⟩ := he
      simp [alook]
    · have hne : h1 ≠ h := by
        intro e
        subst e
        exact hnd.1 (List.mem_map.mpr ⟨(h1, vs), hm2, rfl⟩)
      simp only [alook, if_neg hne]
      exact ih hnd.2 hm2


theorem stepReading_cases {acc acc' : List (ℕ × List ℚ)} {r : Reading}
    (hs : stepReading acc r = some acc') :
    (acc' = acc ∧ ¬ IsValidReading r) ∨
      (∃ h, acc' = touchHour acc h ∧ ¬ IsValidReading r) ∨
      ∃ h q, r = Reading.item (TsVal.hour h) (ConsVal.num q) ∧ acc' = addReading acc h q := by
  cases r with
  | notDict =>
    simp only [stepReading, Option.some.injEq] at hs
    exact Or.inl ⟨hs.symm, fun hval => by obtain ⟨h, q, hcon⟩ := hval; cases hcon⟩
  | item ts cv =>
    cases ts with
    | missing =>
      simp only [stepReading, Option.some.injEq] at hs
      exact Or.inl ⟨hs.symm, fun hval => by obtain ⟨h, q, hcon⟩ := hval; cases hcon⟩
    | badParse =>
      cases cv <;>
        (simp only [stepReading, Option.some.injEq] at hs
         exact Or.inl ⟨hs.symm, fun hval => by obtain ⟨h, q, hcon⟩ := hval; cases hcon⟩)
    | hour h =>
      cases cv with
      | noneV =>
        simp only [stepReading, Option.some.injEq] at hs
        exact Or.inl ⟨hs.symm, fun hval => by obtain ⟨h2, q, hcon⟩ := hval; cases hcon⟩
      | badStr =>
        simp only [stepReading, Option.some.injEq] at hs
        exact Or.inr (Or.inl ⟨h, hs.symm,
          fun hval => by obtain ⟨h2, q, hcon⟩ := hval; cases hcon⟩)
      | typeErr => exact Option.noConfusion hs
      | num q =>
        simp only [stepReading, Option.some.injEq] at hs
        exact Or.inr (Or.inr ⟨h, q, rfl, hs.symm⟩)

/-- Any property preserved by `addReading` and `touchHour` is carried
from the initial accumulator to the final grouping dict. -/
theorem groupAux_invariant (P : List (ℕ × List ℚ) → Prop)
    (hP : ∀ acc h q, P acc → P (addReading acc h q))
    (hPt : ∀ acc h, P acc → P (touchHour acc h)) :
    ∀ (rs : List Reading) (acc g : List (ℕ × List ℚ)),
      groupAux acc rs = some g → P acc → P g := by
  intro rs
  induction rs with
  | nil =>
    intro acc g hg hp
    simp only [groupAux, Option.some.injEq] at hg
    exact hg ▸ hp
  | cons r rs ih =>
    intro acc g hg hp
    cases hstep : stepReading acc r with
    | none =>
      rw [groupAux, hstep] at hg
      exact Option.noConfusion hg
    | some acc2 =>
      rw [groupAux, hstep] at hg
      rcases stepReading_cases hstep with ⟨rfl, _⟩ | ⟨h, rfl, _⟩ | ⟨h, q, _, rfl⟩
      · exact ih _ _ hg hp
      · exact ih _ _ hg (hPt _ _ hp)
      · exact ih _ _ hg (hP _ _ _ hp)

theorem groupAux_alook : ∀ (rs : List Reading) (acc g : List (ℕ × List ℚ)),
    groupAux acc rs = some g →
    ∀ h, alook g h = alook acc h ++ hourValues rs h := by
  intro rs
  induction rs with
  | nil =>
    intro acc g hg h
    simp only [groupAux, Option.some.injEq] at hg
    subst hg
    simp [hourValues]
  | cons r rs ih =>
    intro acc g hg h
    cases r with
    | notDict =>
      simp only [groupAux, stepReading] at hg
      rw [ih _ _ hg h]
      simp [hourValues, List.filterMap_cons]
    | item ts cv =>
      cases ts with
      | missing =>
        simp only [groupAux, stepReading] at hg
        rw [ih _ _ hg h]
        simp [hourValues, List.filterMap_cons]
      | badParse =>
        cases cv <;>
          (simp only [groupAux, stepReading] at hg
           rw [ih _ _ hg h]
           simp [hourValues, List.filterMap_cons])
      | hour h2 =>
        cases cv with
        | noneV =>
          simp only [groupAux, stepReading] at hg
          rw [ih _ _ hg h]
          simp [hourValues, List.filterMap_cons]
        | badStr =>
          simp only [groupAux, stepReading] at hg
          rw [ih _ _ hg h, alook_touchHour]
          simp [hourValues, List.filterMap_cons]
        | typeErr =>
          rw [groupAux] at hg
          exact Option.noConfusion hg
        | num q =>
          simp only [groupAux, stepReading] at hg
          rw [ih _ _ hg h]
          by_cases e : h2 = h
          · subst e
            rw [alook_addReading_same]
            simp [hourValues, List.filterMap_cons]
          · rw [alook_addReading_other _ q (Ne.symm e)]
            simp [hourValues, List.filterMap_cons, e]

theorem groupReadings_alook {rs : List Reading} {g : List (ℕ × List ℚ)}
    (hg : groupReadings rs = some g) (h : ℕ) : alook g h = hourValues rs h := by
  have := groupAux_alook rs [] g hg h
  simpa [alook] using this

theorem groupReadings_nodup_keys {rs : List Reading} {g : List (ℕ × List ℚ)}
    (hg : groupReadings rs = some g) : (keysOf g).Nodup :=
  groupAux_invariant (fun l => (keysOf l).Nodup)
    (fun acc h q hp => nodup_keys_addReading h q hp)
    (fun acc h hp => nodup_keys_touchHour h hp) rs [] g hg (by simp [keysOf])

/-- The values of each hour bucket are exactly the consumptions of the
valid readings with that hour. -/
theorem groupReadings_values {rs : List Reading} {g : List (ℕ × List ℚ)}
    (hg : groupReadings rs = some g) {h : ℕ} {vs : List ℚ}
    (hm : (h, vs) ∈ g) : vs = hourValues rs h := by
  rw [← groupReadings_alook hg h, alook_of_mem (groupReadings_nodup_keys hg) hm]

theorem groupAux_ne_nil_of_valid : ∀ (rs : List Reading) (acc g : List (ℕ × List ℚ)),
    groupAux acc rs = some g →
    ((∃ r ∈ rs, IsValidReading r) ∨ acc ≠ []) → g ≠ [] := by
  intro rs
  induction rs with
  | nil =>
    intro acc g hg hv
    simp only [groupAux, Option.some.injEq] at hg
    rcases hv with ⟨r, hr, _⟩ | hne
    · cases hr
    · exact hg ▸ hne
  | cons r rs ih =>
    intro acc g hg hv
    cases hstep : stepReading acc r with
    | none =>
      rw [groupAux, hstep] at hg
      exact Option.noConfusion hg
    | some acc2 =>
      rw [groupAux, hstep] at hg
      rcases stepReading_cases hstep with ⟨rfl, hnv⟩ | ⟨h, rfl, hnv⟩ | ⟨h, q, _, rfl⟩
      · refine ih _ _ hg ?_
        rcases hv with ⟨r2, hr2, hval⟩ | hne
        · rcases List.mem_cons.mp hr2 with rfl | hr3
          · exact absurd hval hnv
          · exact Or.inl ⟨r2, hr3, hval⟩
        · exact Or.inr hne
      · exact ih _ _ hg (Or.inr (touchHour_ne_nil _ _))
      · exact ih _ _ hg (Or.inr (addReading_ne_nil _ _ _))

theorem groupReadings_ne_nil {rs : List Reading} {g : List (ℕ × List ℚ)}
    (hg : groupReadings rs = some g) (hv : ∃ r ∈ rs, IsValidReading r) :
    g ≠ [] :=
  groupAux_ne_nil_of_valid rs [] g hg (Or.inl hv)

/-! ## Helper lemmas: square root rounding and variance -/

theorem sqrt_four_real : Real.sqrt 4 = 2 := by
  rw [show (4:ℝ) = 2 ^ 2 by norm_num, Real.sqrt_sq (by norm_num)]

theorem sqrtNearestInt_close {s d : ℕ} (hd : 0 < d) :
    |(sqrtNearestInt s d : ℝ) - Real.sqrt s / d| ≤ 1 / 2 := by
  have hdR : (0:ℝ) < d := by exact_mod_cast hd
  simp only [sqrtNearestInt]
  set t := Nat.sqrt s with ht
  set m := t / d with hm
  have ht1 : (t:ℝ) ≤ Real.sqrt s := by
    apply Real.le_sqrt_of_sq_le
    exact_mod_cast Nat.sqrt_le' s
  have ht2 : Real.sqrt s < (t:ℝ) + 1 := by
    rw [Real.sqrt_lt' (by positivity)]
    exact_mod_cast Nat.lt_succ_sqrt' s
  have hm1 : (m:ℝ) ≤ Real.sqrt s / d := by
    rw [le_div_iff₀ hdR]
    refine le_trans ?_ ht1
    exact_mod_cast Nat.div_mul_le_self t d
  have hm2 : Real.sqrt s / d < (m:ℝ) + 1 := by
    rw [div_lt_iff₀ hdR]
    have h1 : t < (m + 1) * d := by
      rw [← Nat.div_lt_iff_lt_mul hd]
      exact Nat.lt_succ_self m
    have h2 : (t:ℝ) + 1 ≤ ((m:ℝ) + 1) * d := by
      have : (t:ℕ) + 1 ≤ (m + 1) * d := h1
      exact_mod_cast this
    linarith
  split_ifs with hA hB hP
  · -- 4 s < (2 d m + d)^2 : result m
    have hlt : 2 * Real.sqrt s < 2 * d * m + d := by
      have h1 : Real.sqrt (4 * s) < Real.sqrt (((2 * d * m + d : ℕ) : ℝ) ^ 2) := by
        apply Real.sqrt_lt_sqrt (by positivity)
        exact_mod_cast hA
      rw [Real.sqrt_mul (by norm_num) _, sqrt_four_real, Real.sqrt_sq (by positivity)] at h1
      push_cast at h1 ⊢
      linarith
    have hup : Real.sqrt s / d < (m:ℝ) + 1 / 2 := by
      rw [div_lt_iff₀ hdR]
      nlinarith [hdR]
    rw [abs_sub_comm, abs_of_nonneg (by linarith)]
    linarith
  · -- (2 d m + d)^2 < 4 s : result m + 1
    have hlt : (2 * (d:ℝ) * m + d) < 2 * Real.sqrt s := by
      have h1 : (((2 * d * m + d : ℕ) : ℝ)) < Real.sqrt (4 * s) := by
        rw [Real.lt_sqrt (by positivity)]
        exact_mod_cast hB
      rw [Real.sqrt_mul (by norm_num) _, sqrt_four_real] at h1
      push_cast at h1
      linarith
    have hup : (m:ℝ) + 1 / 2 < Real.sqrt s / d := by
      rw [lt_div_iff₀ hdR]
      nlinarith [hdR]
    push_cast
    rw [abs_of_nonneg (by linarith)]
    linarith
  · -- tie, m even : result m
    have heq : 4 * (s:ℝ) = ((2 * d * m + d : ℕ) : ℝ) ^ 2 := by
      have : (4 * s : ℕ) = ((2 * d * m + d) ^ 2 : ℕ) := le_antisymm (not_lt.mp hB) (not_lt.mp hA)
      exact_mod_cast this
    have hroot : 2 * Real.sqrt s = 2 * d * m + d := by
      have h1 : Real.sqrt (4 * s) = Real.sqrt (((2 * d * m + d : ℕ) : ℝ) ^ 2) := by rw [heq]
      rw [Real.sqrt_mul (by norm_num) _, sqrt_four_real, Real.sqrt_sq (by positivity)] at h1
      push_cast at h1 ⊢
      linarith
    have hval : Real.sqrt s / d = (m:ℝ) + 1 / 2 := by
      field_simp
      linarith
    rw [hval]
    rw [abs_of_nonpos (by linarith)]
    linarith
  · -- tie, m odd : result m + 1
    have heq : 4 * (s:ℝ) = ((2 * d * m + d : ℕ) : ℝ) ^ 2 := by
      have : (4 * s : ℕ) = ((2 * d * m + d) ^ 2 : ℕ) := le_antisymm (not_lt.mp hB) (not_lt.mp hA)
      exact_mod_cast this
    have hroot : 2 * Real.sqrt s = 2 * d * m + d := by
      have h1 : Real.sqrt (4 * s) = Real.sqrt (((2 * d * m + d : ℕ) : ℝ) ^ 2) := by rw [heq]
      rw [Real.sqrt_mul (by norm_num) _, sqrt_four_real, Real.sqrt_sq (by positivity)] at h1
      push_cast at h1 ⊢
      linarith
    have hval : Real.sqrt s / d = (m:ℝ) + 1 / 2 := by
      field_simp
      linarith
    rw [hval]
    push_cast
    rw [abs_of_nonneg (by linarith)]
    linarith


theorem sqrtRound2_zero : sqrtRound2 0 = 0 := by
  rw [sqrtRound2, if_pos le_rfl]

theorem sqrtRound2_close {v : ℚ} (hv : 0 ≤ v) :
    |((sqrtRound2 v : ℚ) : ℝ) - Real.sqrt ((v : ℚ) : ℝ)| ≤ 1 / 200 := by
  rcases eq_or_lt_of_le hv with heq | hpos
  · rw [← heq, sqrtRound2_zero]
    simp
  · rw [sqrtRound2, if_neg (not_le.mpr hpos)]
    have hd : 0 < v.den := v.pos
    have hdR : (0:ℝ) < (v.den : ℝ) := by exact_mod_cast hd
    have hvR : (0:ℝ) < ((v : ℚ) : ℝ) := by exact_mod_cast hpos
    have hnum : ((v.num.toNat : ℕ) : ℝ) = ((v.num : ℤ) : ℝ) := by
      have h0 : 0 ≤ v.num := Rat.num_nonneg.mpr hv
      exact_mod_cast Int.toNat_of_nonneg h0
    have hcast : (((10000 * v.num.toNat * v.den : ℕ) : ℝ)) =
        (100 * (v.den : ℝ)) ^ 2 * ((v : ℚ) : ℝ) := by
      have hvdef : ((v : ℚ) : ℝ) = ((v.num : ℤ) : ℝ) / ((v.den : ℕ) : ℝ) :=
        Rat.cast_def v
      push_cast
      rw [hvdef, hnum]
      field_simp
      ring
    have hsq : Real.sqrt ((10000 * v.num.toNat * v.den : ℕ) : ℝ) =
        100 * (v.den : ℝ) * Real.sqrt ((v : ℚ) : ℝ) := by
      rw [hcast, Real.sqrt_mul (by positivity), Real.sqrt_sq (by positivity)]
    have hclose := sqrtNearestInt_close (s := 10000 * v.num.toNat * v.den) hd
    rw [hsq] at hclose
    have hdiv : 100 * (v.den : ℝ) * Real.sqrt ((v : ℚ) : ℝ) / (v.den : ℝ) =
        100 * Real.sqrt ((v : ℚ) : ℝ) := by
      field_simp
      ring
    rw [hdiv] at hclose
    set n := sqrtNearestInt (10000 * v.num.toNat * v.den) v.den with hn
    have hgoal : (((n : ℚ) / 100 : ℚ) : ℝ) = (n : ℝ) / 100 := by push_cast; ring
    rw [hgoal]
    have habs : (n : ℝ) / 100 - Real.sqrt ((v : ℚ) : ℝ) =
        ((n : ℝ) - 100 * Real.sqrt ((v : ℚ) : ℝ)) / 100 := by ring
    rw [habs, abs_div]
    rw [show |(100:ℝ)| = 100 by norm_num]
    linarith [hclose]

theorem listMean_const {l : List ℚ} {c : ℚ} (hne : l ≠ []) (hc : ∀ x ∈ l, x = c) :
    listMean l = c := by
  rw [listMean, List.sum_eq_card_nsmul l c hc, nsmul_eq_mul, mul_div_cancel_left₀]
  exact Nat.cast_ne_zero.mpr (List.length_pos.mpr hne).ne'

theorem sampleVar_const {l : List ℚ} {c : ℚ} (hc : ∀ x ∈ l, x = c) :
    sampleVar l = 0 := by
  cases hl : l with
  | nil => simp [sampleVar, listMean]
  | cons a t =>
    rw [← hl, sampleVar]
    have hmean : listMean l = c := listMean_const (by rw [hl]; simp) hc
    have hsum : (l.map (fun x => (x - listMean l) ^ 2)).sum = 0 := by
      apply List.sum_eq_zero
      intro y hy
      obtain ⟨x, hx, rfl⟩ := List.mem_map.mp hy
      rw [hmean, hc x hx]
      ring
    rw [hsum, zero_div]

theorem sampleVar_nonneg {l : List ℚ} (h2 : 2 ≤ l.length) : 0 ≤ sampleVar l := by
  rw [sampleVar]
  apply div_nonneg
  · apply List.sum_nonneg
    intro y hy
    obtain ⟨x, hx, rfl⟩ := List.mem_map.mp hy
    positivity
  · have : (2:ℚ) ≤ (l.length : ℚ) := by exact_mod_cast h2
    linarith


/-! ## Claim theorems -/

theorem ToolResult.status_dichotomy (r : ToolResult α) :
    r.status = "success" ∨ r.status = "error" := by
  cases r
  · exact Or.inl rfl
  · exact Or.inr rfl

/-- C5: calculate_consumption_statistics returns the error result exactly
when no consumption_kwh value survives numeric coercion; with at least one
surviving value it returns the success dict computed from exactly the
surviving values. -/
theorem stats_error_iff_no_valid (data : List StatItem) :
    ((calculate_consumption_statistics data).isErr = true ↔ consumptions data = []) ∧
      (consumptions data ≠ [] →
        calculate_consumption_statistics data = .ok (statsOf (consumptions data))) := by
  constructor
  · by_cases h1 : data = []
    · subst h1
      simp [calculate_consumption_statistics, consumptions, ToolResult.isErr]
    · by_cases h2 : consumptions data = []
      · simp [calculate_consumption_statistics, h1, h2, ToolResult.isErr]
      · simp [calculate_consumption_statistics, h1, h2, ToolResult.isErr]
  · intro hne
    have h1 : data ≠ [] := by
      intro e
      apply hne
      rw [e]
      rfl
    simp [calculate_consumption_statistics, h1, hne]

/-- C5 witness at a concrete input with one coercible and one malformed
element. -/
theorem stats_error_iff_no_valid_witness :
    consumptions [StatItem.field (PyNum.num 2), StatItem.notDict] ≠ [] ∧
      calculate_consumption_statistics [StatItem.field (PyNum.num 2), StatItem.notDict] =
        .ok (statsOf (consumptions [StatItem.field (PyNum.num 2), StatItem.notDict])) :=
  ⟨by with_unfolding_all decide,
    (stats_error_iff_no_valid [StatItem.field (PyNum.num 2), StatItem.notDict]).2
      (by with_unfolding_all decide)⟩

/-- C6: std_dev is 0 when exactly one value survives and when all
surviving values are equal; with two or more surviving values it is the
sample standard deviation rounded to two decimal places (a whole number of
hundredths within half a hundredth of the true square root). -/
theorem stats_stddev_spec (data : List StatItem) (s : Stats)
    (hok : calculate_consumption_statistics data = .ok s) :
    ((consumptions data).length = 1 → s.std_dev = 0) ∧
      ((∃ c, ∀ x ∈ consumptions data, x = c) → s.std_dev = 0) ∧
      (2 ≤ (consumptions data).length →
        (∃ k : ℤ, s.std_dev = (k : ℚ) / 100) ∧
          |((s.std_dev : ℚ) : ℝ) - Real.sqrt ((sampleVar (consumptions data) : ℚ) : ℝ)| ≤
            1 / 200) := by
  have hs : s = statsOf (consumptions data) := by
    rw [calculate_consumption_statistics] at hok
    split_ifs at hok
    cases hok
    rfl
  subst hs
  refine ⟨?_, ?_, ?_⟩
  · intro h1
    simp [statsOf, h1]
  · rintro ⟨c, hc⟩
    by_cases hlen : 1 < (consumptions data).length
    · simp only [statsOf, if_pos hlen]
      rw [sampleVar_const hc, sqrtRound2_zero]
    · simp [statsOf, hlen]
  · intro h2
    have hlen : 1 < (consumptions data).length := h2
    refine ⟨?_, ?_⟩
    · simp only [statsOf, if_pos hlen]
      rw [sqrtRound2]
      split_ifs with hv
      · exact ⟨0, by norm_num⟩
      · refine ⟨((sqrtNearestInt (10000 * (sampleVar (consumptions data)).num.toNat *
          (sampleVar (consumptions data)).den) (sampleVar (consumptions data)).den : ℕ) : ℤ), ?_⟩
        push_cast
        ring
    · simp only [statsOf, if_pos hlen]
      exact sqrtRound2_close (sampleVar_nonneg h2)


/-- C6 witness: three equal readings give std_dev 0. -/
theorem stats_stddev_spec_witness :
    calculate_consumption_statistics
        [StatItem.field (PyNum.num 5), StatItem.field (PyNum.num 5),
          StatItem.field (PyNum.num 5)] =
      .ok (statsOf [5, 5, 5]) ∧ (statsOf [5, 5, 5]).std_dev = 0 :=
  ⟨by with_unfolding_all decide,
    (stats_stddev_spec
        [StatItem.field (PyNum.num 5), StatItem.field (PyNum.num 5),
          StatItem.field (PyNum.num 5)] (statsOf [5, 5, 5])
        (by with_unfolding_all decide)).2.1 ⟨5, by with_unfolding_all decide⟩⟩

/-- C7: at (850, 15, 0.15) the code returns monthly_savings_usd = 19.12
(round half-to-even of 19.125 = 127.5 × 0.15), not the 19.13 the
docstring and spec promise; every other field matches the docstring. -/
theorem savings_850_15_returns_19_12 :
    estimate_savings_potential 850 15 (15 / 100) =
      .ok ⟨1912 / 100, 2295 / 10, 1275 / 10, 1530, 1275 / 10, 10838 / 100, 15⟩ ∧
      (1912 / 100 : ℚ) ≠ 1913 / 100 := by
  constructor
  · rw [estimate_savings_potential]
    norm_num [round2, roundTo, roundHalfEven]
  · norm_num

/-- C8: every one of the four tools returns a dict whose status field is
either success or error, on every input in the modelled input space
(malformed records, non-numeric values and unparsable timestamps
included); all exceptional paths are embedded as error results. -/
theorem tools_total_status (data : List StatItem) (rs : List Reading) (n : ℤ)
    (c : ℚ) (tiers : List Tier) (c2 r2 rate2 : ℚ) :
    ((calculate_consumption_statistics data).status = "success" ∨
        (calculate_consumption_statistics data).status = "error") ∧
      ((detect_peak_hours rs n).status = "success" ∨
        (detect_peak_hours rs n).status = "error") ∧
      ((calculate_cost_by_rate_tier c tiers).status = "success" ∨
        (calculate_cost_by_rate_tier c tiers).status = "error") ∧
      ((estimate_savings_potential c2 r2 rate2).status = "success" ∨
        (estimate_savings_potential c2 r2 rate2).status = "error") :=
  ⟨ToolResult.status_dichotomy _, ToolResult.status_dichotomy _,
    ToolResult.status_dichotomy _, ToolResult.status_dichotomy _⟩

/-- C9: with top_n = 0 the selected top slice is empty, so
statistics.mean raises and the outer handler returns an error dict, even
when valid readings exist. -/
theorem detect_top0_error (rs : List Reading)
    (_hv : ∃ r ∈ rs, IsValidReading r) :
    (detect_peak_hours rs 0).isErr = true := by
  rw [detect_peak_hours]
  by_cases hrs : rs.isEmpty
  · rw [if_pos hrs]
    rfl
  · rw [if_neg hrs]
    cases hg : groupReadings rs with
    | none => rfl
    | some g =>
      by_cases h1 : g.isEmpty
      · simp [h1, ToolResult.isErr]
      · by_cases h2 : g.any (fun p => p.2.isEmpty)
        · simp [h1, h2, ToolResult.isErr]
        · have htop : (pyTake 0 (rankedHours g)).isEmpty = true := by
            rw [pyTake_nonneg le_rfl]
            simp
          simp [h1, h2, htop, ToolResult.isErr]

/-- C9 witness: one valid reading, top_n = 0. -/
theorem detect_top0_error_witness :
    (∃ r ∈ [Reading.item (TsVal.hour 0) (ConsVal.num 1)], IsValidReading r) ∧
      (detect_peak_hours [Reading.item (TsVal.hour 0) (ConsVal.num 1)] 0).isErr = true :=
  ⟨⟨_, List.mem_singleton.mpr rfl, ⟨0, 1, rfl⟩⟩,
    detect_top0_error _ ⟨_, List.mem_singleton.mpr rfl, ⟨0, 1, rfl⟩⟩⟩


theorem sumKwh_nil : sumKwh [] = 0 := rfl

theorem sumKwh_cons (a : TierAlloc) (l : List TierAlloc) :
    sumKwh (a :: l) = a.kwh + sumKwh l := by
  simp [sumKwh]

/-- The total kWh the multi-tier loop hands out never exceeds the
consumption it started from. -/
theorem allocateTiers_sum_le (tiers : List Tier) :
    ∀ (rem : ℚ) (idx : ℕ), 0 ≤ rem → sumKwh (allocateTiers rem tiers idx) ≤ rem := by
  induction tiers with
  | nil =>
    intro rem idx h
    simpa [allocateTiers, sumKwh] using h
  | cons t ts ih =>
    intro rem idx h
    rw [allocateTiers]
    split_ifs with h0
    · simpa [sumKwh] using h
    · rw [sumKwh_cons]
      have hkwh : min rem (t.threshold_kwh.getD rem) ≤ rem := min_le_left _ _
      have hrem : 0 ≤ rem - min rem (t.threshold_kwh.getD rem) := by linarith
      have := ih (rem - min rem (t.threshold_kwh.getD rem)) (idx + 1) hrem
      simp only []
      linarith


/-- When every tier declares a non-negative threshold and the thresholds
sum to less than the remaining consumption, each tier consumes exactly its
threshold. -/
theorem allocateTiers_all_thresholds (tiers : List Tier) :
    ∀ (rem : ℚ) (idx : ℕ),
      (∀ t ∈ tiers, ∃ th, t.threshold_kwh = some th ∧ 0 ≤ th) →
      thSum tiers < rem →
      (allocateTiers rem tiers idx).map (fun a => (a.kwh, a.rate)) =
        tiers.map (fun t => (t.threshold_kwh.getD 0, effRate t)) := by
  induction tiers with
  | nil => intro rem idx _ _; simp [allocateTiers]
  | cons t ts ih =>
    intro rem idx hth hlt
    obtain ⟨th, hsome, hth0⟩ := hth t (List.mem_cons_self _ _)
    have hts : ∀ u ∈ ts, ∃ th2, u.threshold_kwh = some th2 ∧ 0 ≤ th2 :=
      fun u hu => hth u (List.mem_cons_of_mem _ hu)
    have hsum0 : 0 ≤ thSum ts := by
      rw [thSum]
      apply List.sum_nonneg
      intro y hy
      obtain ⟨u, hu, rfl⟩ := List.mem_map.mp hy
      obtain ⟨th2, hsome2, hth20⟩ := hts u hu
      rw [hsome2]
      simpa using hth20
    have hcons : thSum (t :: ts) = th + thSum ts := by
      simp [thSum, hsome]
    have hrem0 : 0 < rem := by
      rw [hcons] at hlt
      linarith
    rw [allocateTiers, if_neg (not_le.mpr hrem0)]
    have hmin : min rem (t.threshold_kwh.getD rem) = th := by
      rw [hsome]
      simp only [Option.getD_some]
      rw [hcons] at hlt
      exact min_eq_right (by linarith)
    rw [hmin, List.map_cons, List.map_cons, hsome]
    simp only [Option.getD_some]
    rw [ih (rem - th) (idx + 1) hts (by rw [hcons] at hlt; linarith)]

/-- C2 counterexample: a valid single-tier call (consumption 100, flat
rate 0.10) succeeds but its result carries no average_rate field. -/
theorem cost_single_tier_no_average_rate :
    calculate_cost_by_rate_tier 100
        [⟨some "standard", none, some (1 / 10), none, none⟩] =
      .ok ⟨10, "USD", [⟨"standard", 100, 1 / 10, 10⟩], none⟩ := by
  with_unfolding_all decide

/-- C2 amended: only the multi-tier branch (two or more tiers) of a valid
call emits average_rate, equal to the unrounded accumulated total cost
divided by consumption, rounded to 3 decimals; total_cost is that total
rounded to 2 decimals. -/
theorem cost_average_rate_multi (c : ℚ) (tiers : List Tier)
    (hc : 0 < c) (hlen : 2 ≤ tiers.length) :
    ∃ r, calculate_cost_by_rate_tier c tiers = .ok r ∧
      r.average_rate =
        some (round3 (rawCost (allocateTiers c (sortByKey sortRateKey tiers) 0) / c)) ∧
      r.total_cost = round2 (rawCost (allocateTiers c (sortByKey sortRateKey tiers) 0)) := by
  match tiers, hlen with
  | t1 :: t2 :: ts, _ =>
    rw [calculate_cost_by_rate_tier, if_neg (not_le.mpr hc)]
    exact ⟨_, rfl, rfl, rfl⟩


/-- C2 witness: the three-tier example call instantiates the amended
claim. -/
theorem cost_average_rate_multi_witness :
    (0 : ℚ) < 850 ∧ 2 ≤ exampleTiers.length ∧
      ∃ r, calculate_cost_by_rate_tier 850 exampleTiers = .ok r ∧
        r.average_rate =
          some (round3 (rawCost (allocateTiers 850 (sortByKey sortRateKey exampleTiers) 0) / 850)) ∧
        r.total_cost = round2 (rawCost (allocateTiers 850 (sortByKey sortRateKey exampleTiers) 0)) :=
  ⟨by norm_num, by with_unfolding_all decide,
    cost_average_rate_multi 850 exampleTiers (by norm_num) (by with_unfolding_all decide)⟩

/-- C10: the unrounded allocations of a multi-tier call sum to at most
the consumption; the loop total is exactly the sum of allocated kWh times
rate, reported as its 2-decimal rounding; and when every tier carries a
non-negative threshold whose sum is below the consumption, every tier
consumes exactly its threshold, so the excess is allocated to no tier and
contributes nothing to the total. -/
theorem cost_allocation_invariants (c : ℚ) (tiers : List Tier)
    (hc : 0 < c) (hlen : 2 ≤ tiers.length) :
    sumKwh (allocateTiers c (sortByKey sortRateKey tiers) 0) ≤ c ∧
      rawCost (allocateTiers c (sortByKey sortRateKey tiers) 0) =
        ((allocateTiers c (sortByKey sortRateKey tiers) 0).map
          (fun a => a.kwh * a.rate)).sum ∧
      (∃ r, calculate_cost_by_rate_tier c tiers = .ok r ∧
        r.total_cost = round2 (rawCost (allocateTiers c (sortByKey sortRateKey tiers) 0)) ∧
        r.tier_breakdown = (allocateTiers c (sortByKey sortRateKey tiers) 0).map entryOf) ∧
      ((∀ t ∈ tiers, ∃ th, t.threshold_kwh = some th ∧ 0 ≤ th) → thSum tiers < c →
        sumKwh (allocateTiers c (sortByKey sortRateKey tiers) 0) = thSum tiers ∧
        rawCost (allocateTiers c (sortByKey sortRateKey tiers) 0) =
          ((sortByKey sortRateKey tiers).map
            (fun t => t.threshold_kwh.getD 0 * effRate t)).sum) := by
  refine ⟨allocateTiers_sum_le _ c 0 (le_of_lt hc), rfl, ?_, ?_⟩
  · match tiers, hlen with
    | t1 :: t2 :: ts, _ =>
      rw [calculate_cost_by_rate_tier, if_neg (not_le.mpr hc)]
      exact ⟨_, rfl, rfl, rfl⟩
  · intro hth hlt
    have hth2 : ∀ t ∈ sortByKey sortRateKey tiers,
        ∃ th, t.threshold_kwh = some th ∧ 0 ≤ th :=
      fun t ht => hth t (sortByKey_mem.mp ht)
    have hperm : thSum (sortByKey sortRateKey tiers) = thSum tiers := by
      rw [thSum, thSum]
      exact List.Perm.sum_eq ((sortByKey_perm _ _).map _)
    have hpairs := allocateTiers_all_thresholds (sortByKey sortRateKey tiers) c 0 hth2
      (by rw [hperm]; exact hlt)
    constructor
    · have hkwh : (allocateTiers c (sortByKey sortRateKey tiers) 0).map (fun a => a.kwh) =
          (sortByKey sortRateKey tiers).map (fun t => t.threshold_kwh.getD 0) := by
        have h2 := congrArg (List.map Prod.fst) hpairs
        simpa [List.map_map, Function.comp] using h2
      rw [sumKwh, hkwh, ← thSum, hperm]
    · have hcost : (allocateTiers c (sortByKey sortRateKey tiers) 0).map
            (fun a => a.kwh * a.rate) =
          (sortByKey sortRateKey tiers).map (fun t => t.threshold_kwh.getD 0 * effRate t) := by
        have h2 := congrArg (List.map (fun p : ℚ × ℚ => p.1 * p.2)) hpairs
        simpa [List.map_map, Function.comp] using h2
      rw [rawCost, hcost]

/-- C10 witness: consumption 2000 exceeds the example thresholds
(200 + 500 + 1000 = 1700), so exactly 1700 kWh is allocated and 300 kWh
is charged to no tier. -/
theorem cost_allocation_invariants_witness :
    (0 : ℚ) < 2000 ∧ 2 ≤ exampleTiers.length ∧ thSum exampleTiers < 2000 ∧
      sumKwh (allocateTiers 2000 (sortByKey sortRateKey exampleTiers) 0) ≤ 2000 ∧
      sumKwh (allocateTiers 2000 (sortByKey sortRateKey exampleTiers) 0) = thSum exampleTiers := by
  have hth : ∀ t ∈ exampleTiers, ∃ th, t.threshold_kwh = some th ∧ 0 ≤ th := by
    intro t ht
    rw [exampleTiers] at ht
    rcases List.mem_cons.mp ht with rfl | ht
    · exact ⟨200, rfl, by norm_num⟩
    rcases List.mem_cons.mp ht with rfl | ht
    · exact ⟨500, rfl, by norm_num⟩
    rcases List.mem_cons.mp ht with rfl | ht
    · exact ⟨1000, rfl, by norm_num⟩
    cases ht
  have hbase := cost_allocation_invariants 2000 exampleTiers (by norm_num)
    (by with_unfolding_all decide)
  exact ⟨by norm_num, by with_unfolding_all decide, by with_unfolding_all decide,
    hbase.1, (hbase.2.2.2 hth (by with_unfolding_all decide)).1⟩


/-- Sorting the image of a map by a key is mapping the sort by the
composed key (Python sorts behave identically on mapped data). -/
theorem sortByKey_map_comm (f : α → β) (key : β → ℚ) (l : List α) :
    (sortByKey (fun a => key (f a)) l).map f = sortByKey key (l.map f) :=
  List.map_insertionSort _ _ f l (fun _ _ _ _ => Iff.rfl)

/-- The code-side multi-tier loop on dicts built from spec RateTier
records performs exactly the spec's progressive allocation. -/
theorem allocateTiers_map_toTier (l : List SpecRateTier) :
    ∀ (c : ℚ) (idx : ℕ),
      (allocateTiers c (l.map toTier) idx).map (fun a => (a.kwh, a.rate)) =
        specAllocate c l := by
  induction l with
  | nil => intro c idx; simp [allocateTiers, specAllocate]
  | cons t ts ih =>
    intro c idx
    rw [List.map_cons, allocateTiers, specAllocate]
    by_cases hr : c ≤ 0
    · simp [hr]
    · rw [if_neg hr, if_neg hr]
      cases hth : t.threshold_kwh with
      | none =>
        simp only [toTier, hth, Option.getD_none, min_self, List.map_cons]
        rw [ih]
        rfl
      | some th =>
        simp only [toTier, hth, Option.getD_some, List.map_cons]
        rw [ih]
        rfl

set_option maxRecDepth 3000 in
/-- C1: the multi-tier branch implements the spec's progressive
allocation — sort ascending by rate_per_kwh, each tier consumes
min(remaining, threshold) kWh (all remaining kWh when the threshold is
absent), cost accumulates kwh × rate, stopping at zero remaining or
exhausted tiers — and the 850 kWh three-tier example yields
200@0.10 = 20.00, 500@0.15 = 75.00, 150@0.25 = 37.50, total 132.50. -/
theorem cost_matches_spec_allocation :
    (∀ (c : ℚ) (sts : List SpecRateTier), 0 < c → 2 ≤ sts.length →
      ∃ r, calculate_cost_by_rate_tier c (sts.map toTier) = .ok r ∧
        r.tier_breakdown.map (fun e => (e.kwh, e.rate)) =
          (specAllocate c (specSortTiers sts)).map (fun p => (round2 p.1, p.2)) ∧
        r.total_cost =
          round2 (((specAllocate c (specSortTiers sts)).map (fun p => p.1 * p.2)).sum)) ∧
      calculate_cost_by_rate_tier 850 exampleTiers =
        .ok ⟨265 / 2, "USD",
          [⟨"tier_1", 200, 1 / 10, 20⟩, ⟨"tier_2", 500, 3 / 20, 75⟩,
            ⟨"tier_3", 150, 1 / 4, 75 / 2⟩], some (39 / 250)⟩ := by
  constructor
  · intro c sts hc hlen
    match sts, hlen with
    | s1 :: s2 :: ss, _ =>
      have hsort : sortByKey sortRateKey ((s1 :: s2 :: ss).map toTier) =
          (specSortTiers (s1 :: s2 :: ss)).map toTier := by
        rw [specSortTiers, ← sortByKey_map_comm]
        rfl
      have hpairs : (allocateTiers c ((specSortTiers (s1 :: s2 :: ss)).map toTier) 0).map
            (fun a => (a.kwh, a.rate)) = specAllocate c (specSortTiers (s1 :: s2 :: ss)) :=
        allocateTiers_map_toTier (specSortTiers (s1 :: s2 :: ss)) c 0
      rw [List.map_cons, List.map_cons] at hsort ⊢
      rw [calculate_cost_by_rate_tier, if_neg (not_le.mpr hc)]
      refine ⟨_, rfl, ?_, ?_⟩
      · rw [hsort, ← hpairs]
        simp [List.map_map, Function.comp, entryOf]
      · rw [hsort, rawCost, ← hpairs]
        simp only [List.map_map]
        rfl
  · with_unfolding_all decide

/-- C1 witness: the universal refinement instantiated at the spec's own
850 kWh / three-tier test case. -/
theorem cost_matches_spec_allocation_witness :
    (0 : ℚ) < 850 ∧ 2 ≤ exampleSpecTiers.length ∧
      ∃ r, calculate_cost_by_rate_tier 850 (exampleSpecTiers.map toTier) = .ok r ∧
        r.tier_breakdown.map (fun e => (e.kwh, e.rate)) =
          (specAllocate 850 (specSortTiers exampleSpecTiers)).map
            (fun p => (round2 p.1, p.2)) ∧
        r.total_cost =
          round2 (((specAllocate 850 (specSortTiers exampleSpecTiers)).map
            (fun p => p.1 * p.2)).sum) :=
  ⟨by norm_num, by with_unfolding_all decide,
    cost_matches_spec_allocation.1 850 exampleSpecTiers (by norm_num)
      (by with_unfolding_all decide)⟩


set_option maxRecDepth 3000 in
/-- C3 counterexample: hours 5 and 3 have the same mean consumption 1,
hour 5 appears first among the readings, and the ranking puts 5 before 3:
the tie is not broken by hour value ascending. -/
theorem detect_tie_not_hour_ascending :
    listMean (hourValues [Reading.item (TsVal.hour 5) (ConsVal.num 1),
        Reading.item (TsVal.hour 3) (ConsVal.num 1)] 5) =
      listMean (hourValues [Reading.item (TsVal.hour 5) (ConsVal.num 1),
        Reading.item (TsVal.hour 3) (ConsVal.num 1)] 3) ∧
      detect_peak_hours [Reading.item (TsVal.hour 5) (ConsVal.num 1),
        Reading.item (TsVal.hour 3) (ConsVal.num 1)] 5 =
        .ok ⟨[5, 3], [(5, 1), (3, 1)], 1, 2⟩ ∧
      ([5, 3] : List ℕ) ≠ [3, 5] :=
  ⟨by with_unfolding_all decide, by with_unfolding_all decide, by decide⟩

set_option maxRecDepth 3000 in
/-- C4 counterexample: two hour-0 readings of 0.001 and 0.002 kWh have
true mean 0.0015, but peak_hours_consumption reports
round(0.0015, 2) = 0, not the true mean. -/
theorem detect_mean_is_rounded :
    detect_peak_hours [Reading.item (TsVal.hour 0) (ConsVal.num (1 / 1000)),
        Reading.item (TsVal.hour 0) (ConsVal.num (1 / 500))] 5 =
      .ok ⟨[0], [(0, 0)], 0, 1⟩ ∧
      listMean (hourValues [Reading.item (TsVal.hour 0) (ConsVal.num (1 / 1000)),
        Reading.item (TsVal.hour 0) (ConsVal.num (1 / 500))] 0) = 3 / 2000 ∧
      (0 : ℚ) ≠ 3 / 2000 :=
  ⟨by with_unfolding_all decide, by with_unfolding_all decide,
    by with_unfolding_all decide⟩


/-- C4 amended: when at least one reading is valid, no reading triggers
the uncaught float TypeError (the grouping loop completes), every hour
bucket ends up non-empty (an hour whose bucket was created by a reading
whose consumption then failed float() must also receive some valid
reading, else statistics.mean([]) raises and the call errors), and
top_n ≥ 1, detect_peak_hours succeeds with at most top_n peak hours, and
each reported consumption is the true arithmetic mean of that hour's
valid readings rounded to 2 decimal places. -/
theorem detect_topn_rounded_means (rs : List Reading) (n : ℤ)
    (g : List (ℕ × List ℚ)) (hg : groupReadings rs = some g)
    (hv : ∃ r ∈ rs, IsValidReading r)
    (hgood : ∀ p ∈ g, p.2 ≠ []) (hn : 1 ≤ n) :
    ∃ res, detect_peak_hours rs n = .ok res ∧
      (res.peak_hours.length : ℤ) ≤ n ∧
      ∀ p ∈ res.peak_hours_consumption,
        hourValues rs p.1 ≠ [] ∧ p.2 = round2 (listMean (hourValues rs p.1)) := by
  have hgne : g ≠ [] := groupReadings_ne_nil hg hv
  have hn0 : (0:ℤ) ≤ n := le_trans (by norm_num) hn
  have hrs : ¬ (rs.isEmpty = true) := by
    rw [List.isEmpty_iff]
    intro e
    obtain ⟨r, hr, _⟩ := hv
    rw [e] at hr
    cases hr
  have hrne : rankedHours g ≠ [] := by
    intro e
    apply hgne
    have hlen := congrArg List.length e
    rw [rankedHours] at hlen
    rw [(sortByKey_perm _ _).length_eq, hourlyAverages, List.length_map,
      List.length_nil] at hlen
    exact List.length_eq_zero.mp hlen
  have htop : ¬ ((pyTake n (rankedHours g)).isEmpty = true) := by
    rw [pyTake_nonneg hn0, List.isEmpty_iff, List.take_eq_nil_iff]
    rintro (h0 | h0)
    · rw [Int.toNat_eq_zero] at h0
      omega
    · exact hrne h0
  have hie : ¬ (g.isEmpty = true) := by
    rw [List.isEmpty_iff]
    exact hgne
  have hany : ¬ (g.any (fun p => p.2.isEmpty) = true) := by
    intro h0
    obtain ⟨x, hx, hpx⟩ := List.any_eq_true.mp h0
    exact hgood x hx (List.isEmpty_iff.mp hpx)
  rw [detect_peak_hours, hg]
  simp only [if_neg hrs, if_neg hie, if_neg hany, if_neg htop]
  refine ⟨_, rfl, ?_, ?_⟩
  · rw [List.length_map, pyTake_nonneg hn0]
    calc ((List.take n.toNat (rankedHours g)).length : ℤ)
        ≤ (n.toNat : ℤ) := by exact_mod_cast List.length_take_le _ _
      _ = n := Int.toNat_of_nonneg hn0
  · intro p hp
    obtain ⟨q, hq, rfl⟩ := List.mem_map.mp hp
    have hq2 : q ∈ rankedHours g := by
      have hsub : List.Sublist (pyTake n (rankedHours g)) (rankedHours g) := by
        rw [pyTake_nonneg hn0]
        exact List.take_sublist _ _
      exact hsub.subset hq
    have hq3 : q ∈ hourlyAverages g := sortByKey_mem.mp hq2
    obtain ⟨⟨h, vs⟩, hmem, heq⟩ := List.mem_map.mp hq3
    have hvals : vs = hourValues rs h := groupReadings_values hg hmem
    have hne2 : vs ≠ [] := hgood _ hmem
    rw [← heq]
    constructor
    · rw [← hvals]
      exact hne2
    · rw [← hvals]

/-- C4 witness: a bad-string reading creates hour 7's bucket, later
filled by a valid reading; with top_n = 1 the call succeeds and reports
the rounded true means. -/
theorem detect_topn_rounded_means_witness :
    groupReadings [Reading.item (TsVal.hour 7) ConsVal.badStr,
        Reading.item (TsVal.hour 2) (ConsVal.num 4),
        Reading.item (TsVal.hour 7) (ConsVal.num 6)] =
      some [(7, [6]), (2, [4])] ∧
      (∃ res, detect_peak_hours [Reading.item (TsVal.hour 7) ConsVal.badStr,
          Reading.item (TsVal.hour 2) (ConsVal.num 4),
          Reading.item (TsVal.hour 7) (ConsVal.num 6)] 1 = .ok res ∧
        (res.peak_hours.length : ℤ) ≤ 1 ∧
        ∀ p ∈ res.peak_hours_consumption,
          hourValues [Reading.item (TsVal.hour 7) ConsVal.badStr,
            Reading.item (TsVal.hour 2) (ConsVal.num 4),
            Reading.item (TsVal.hour 7) (ConsVal.num 6)] p.1 ≠ [] ∧
            p.2 = round2 (listMean (hourValues
              [Reading.item (TsVal.hour 7) ConsVal.badStr,
                Reading.item (TsVal.hour 2) (ConsVal.num 4),
                Reading.item (TsVal.hour 7) (ConsVal.num 6)] p.1))) :=
  ⟨by with_unfolding_all decide,
    detect_topn_rounded_means _ 1 [(7, [6]), (2, [4])]
      (by with_unfolding_all decide)
      ⟨_, List.mem_cons_of_mem _ (List.mem_cons_self _ _), ⟨2, 4, rfl⟩⟩
      (by with_unfolding_all decide) (by norm_num)⟩


/-- C3 amended: in peak_hours, hours with unequal means are ranked
descending by mean; two distinct hours with exactly equal means keep the
insertion order of the hourly-consumption dict — an hour's position is
fixed by the first reading whose timestamp parses to that hour and whose
consumption is not None, including a reading whose consumption then
fails float() (it creates the hour's bucket before raising) — not
ascending hour order. -/
theorem detect_tie_first_appearance (rs : List Reading) (n : ℤ)
    (g : List (ℕ × List ℚ)) (res : PeakR)
    (hg : groupReadings rs = some g)
    (hres : detect_peak_hours rs n = .ok res)
    (h1 h2 : ℕ) (hne : h1 ≠ h2) :
    (∀ m, List.Sublist [(h1, m), (h2, m)] (hourlyAverages g) →
        h2 ∈ res.peak_hours → List.Sublist [h1, h2] res.peak_hours) ∧
      (∀ m1 m2, (h1, m1) ∈ hourlyAverages g → (h2, m2) ∈ hourlyAverages g →
        m2 < m1 → h2 ∈ res.peak_hours → List.Sublist [h1, h2] res.peak_hours) := by
  rw [detect_peak_hours, hg] at hres
  dsimp only at hres
  split_ifs at hres
  cases hres
  dsimp only
  obtain ⟨k, hk⟩ := pyTake_eq_take n (rankedHours g)
  have hmap : (pyTake n (rankedHours g)).map (fun p : ℕ × ℚ => p.1) =
      ((rankedHours g).map (fun p : ℕ × ℚ => p.1)).take k := by
    rw [hk, List.map_take]
  have hnd : ((rankedHours g).map (fun p : ℕ × ℚ => p.1)).Nodup := by
    have hperm : List.Perm ((rankedHours g).map (fun p : ℕ × ℚ => p.1))
        ((hourlyAverages g).map (fun p : ℕ × ℚ => p.1)) :=
      (sortByKey_perm _ _).map _
    rw [hperm.nodup_iff]
    have hkeys : (hourlyAverages g).map (fun p : ℕ × ℚ => p.1) = keysOf g := by
      rw [hourlyAverages, keysOf, List.map_map]
      rfl
    rw [hkeys]
    exact groupReadings_nodup_keys hg
  rw [hmap]
  have hfinish : ∀ m1 m2,
      List.Sublist [(h1, m1), (h2, m2)] (rankedHours g) →
      h2 ∈ ((rankedHours g).map (fun p : ℕ × ℚ => p.1)).take k →
      List.Sublist [h1, h2] (((rankedHours g).map (fun p : ℕ × ℚ => p.1)).take k) := by
    intro m1 m2 hpair hmem
    have hfst : List.Sublist [h1, h2] ((rankedHours g).map (fun p : ℕ × ℚ => p.1)) := by
      have := hpair.map (fun p : ℕ × ℚ => p.1)
      simpa using this
    exact pair_sublist_take hnd hne hfst hmem
  constructor
  · intro m hpair hmem
    refine hfinish m m ?_ hmem
    exact sortByKey_pair (le_of_eq rfl) hpair
  · intro m1 m2 hm1 hm2 hlt hmem
    refine hfinish m1 m2 ?_ hmem
    apply sorted_pair_of_lt (sortByKey_sorted _ _)
    · exact sortByKey_mem.mpr hm1
    · exact sortByKey_mem.mpr hm2
    · simpa using hlt

/-- C3 amended witness: hours 9 and 4 both average 2 kWh; hour 9's
bucket is created first by a bad-string reading (its only valid reading
comes last), so hour 9 precedes hour 4 among the peak hours. -/
theorem detect_tie_first_appearance_witness :
    groupReadings [Reading.item (TsVal.hour 9) ConsVal.badStr,
        Reading.item (TsVal.hour 4) (ConsVal.num 2),
        Reading.item (TsVal.hour 9) (ConsVal.num 2)] =
      some [(9, [2]), (4, [2])] ∧
      detect_peak_hours [Reading.item (TsVal.hour 9) ConsVal.badStr,
          Reading.item (TsVal.hour 4) (ConsVal.num 2),
          Reading.item (TsVal.hour 9) (ConsVal.num 2)] 5 =
        .ok ⟨[9, 4], [(9, 2), (4, 2)], 2, 2⟩ ∧
      List.Sublist [9, 4]
        (PeakR.mk [9, 4] [(9, 2), (4, 2)] 2 2).peak_hours := by
  refine ⟨by with_unfolding_all decide, by with_unfolding_all decide, ?_⟩
  exact (detect_tie_first_appearance
      [Reading.item (TsVal.hour 9) ConsVal.badStr,
        Reading.item (TsVal.hour 4) (ConsVal.num 2),
        Reading.item (TsVal.hour 9) (ConsVal.num 2)] 5
      [(9, [2]), (4, [2])] (PeakR.mk [9, 4] [(9, 2), (4, 2)] 2 2)
      (by with_unfolding_all decide) (by with_unfolding_all decide)
      9 4 (by decide)).1 2
    (by with_unfolding_all decide)
    (by with_unfolding_all decide)


end EnergyTools
